import Mathlib

/-!
Verification of the binapi-generator encoding/binding engine
(`cmd/binapi-generator/generate.go`): a shallow embedding of the schema
model and of the emission functions, with theorems about the field
encoding planner, the message role classifier, the documentation
extractor, the CRC getter, the service method synthesizer and the
emission driver.

Emission is modelled as the ordered list of strings that the Go code
passes to `fmt.Fprint*` (one list element per formatted write).  Since
the Go code never inspects the result of any write, every emission
function is a pure function from its inputs to that list of chunks.
-/

namespace BinapiGen

/-! ## Go string helpers

Each helper mirrors the corresponding function of Go's `strings`
package on the inputs the generator uses (ASCII text).  They are
written as structural recursions over `List Char` so that all proofs
can be carried out by kernel evaluation. -/

/-- Go `strings.TrimPrefix pre s`: drop `pre` from the front of `s`
when it is a prefix, otherwise return `s` unchanged. -/
def trimPfx (pre s : String) : String :=
  if pre.data.isPrefixOf s.data then String.mk (s.data.drop pre.data.length) else s

/-- Go `strings.TrimSuffix sfx s`: drop `sfx` from the end of `s` when
it is a suffix, otherwise return `s` unchanged. -/
def trimSfx (sfx s : String) : String :=
  if sfx.data.isSuffixOf s.data then String.mk (s.data.take (s.data.length - sfx.data.length))
  else s

/-- Go `strings.ToLower` (ASCII). -/
def lowerStr (s : String) : String := String.mk (s.data.map Char.toLower)

/-- Split a character list at each underscore (Go `strings.Split s "_"`). -/
def splitUnderscore : List Char → List (List Char)
  | [] => [[]]
  | c :: cs =>
    match splitUnderscore cs with
    | [] => if c = '_' then [[], []] else [[c]]
    | w :: ws => if c = '_' then [] :: w :: ws else (c :: w) :: ws

/-- Capitalize the first character of a word. -/
def capWord : List Char → List Char
  | [] => []
  | c :: cs => c.toUpper :: cs

/-- Modelled from the spec: the identifier normalizer (`camelCaseName`,
declared outside the covered source file).  "Converts
underscore/lowercase schema names to the host language's
exported-identifier convention (leading uppercase, no separators)":
each underscore-separated word is capitalized and the words are
concatenated. -/
def camelCaseName (s : String) : String :=
  String.mk (((splitUnderscore s.data).map capWord).foldl (· ++ ·) [])

/-- Go `%q` on the strings the generator quotes (no characters needing
escapes appear in schema names/CRCs). -/
def goQuote (s : String) : String := "\"" ++ s ++ "\""

/-- Render a `Nat` right-aligned in a field of width 3 (Go `%3d`). -/
def pad3 (n : Nat) : String :=
  let s := Nat.repr n
  String.mk (List.replicate (3 - s.length) ' ') ++ s

/-! ## Schema model (`Package` and friends, declared in the parser) -/

/-- A schema field: name, element type name, fixed length (0 when not a
fixed array), name of the sibling that carries this field's runtime
length (empty when none), and the optional limit metadata
(`field.Meta.Limit`). -/
structure Field where
  name : String
  type : String
  length : Nat
  sizeFrom : String
  limit : Nat
deriving DecidableEq

structure Enum where
  name : String
  type : String
  entries : List (String × String)
deriving DecidableEq

structure Alias where
  name : String
  type : String
  length : Nat
deriving DecidableEq

structure TypeDef where
  name : String
  crc : String
  fields : List Field
deriving DecidableEq

structure Union where
  name : String
  crc : String
  fields : List Field
deriving DecidableEq

structure Message where
  name : String
  crc : String
  fields : List Field
deriving DecidableEq

structure Service where
  requestType : String
  replyType : String
  stream : Bool
deriving DecidableEq

structure Package where
  version : String
  crc : String
  enums : List Enum
  aliases : List Alias
  types : List TypeDef
  unions : List Union
  messages : List Message
  services : List Service

/-- Modelled from the spec: the reserved checksum field name (constant
declared outside the covered source file), compared against lowercased
field names. -/
def crcField : String := "crc"

/-- Modelled from the spec: the reserved message-id field name
(constant declared outside the covered source file). -/
def msgIdField : String := "_vl_msg_id"

/-- Modelled from the spec: the reserved "client index" field name
(constant declared outside the covered source file). -/
def clientIndexField : String := "client_index"

/-- Modelled from the spec: the reserved "context" field name (constant
declared outside the covered source file). -/
def contextField : String := "context"

/-- The generation context (`context` in the source).  `conv` models
`convertToGoType` and `scalarType` models the `binapiTypes` lookup;
both live outside the covered source file, so they are kept abstract
parameters of the context (Modelled from the spec: "maps schema names
to host-language-safe identifiers / scalar types").  `sizeOf` models
the size oracle consulted by `getUnionSize` (Modelled from the spec:
"a size-oracle collaborator that knows each type's encoded byte
width").  `inputData` is the raw schema source text, as the list of
its newline-terminated lines (the decomposition `ReadString '\n'`
produces; an unterminated final line is never processed by the source
and is therefore not represented). -/
structure Ctx where
  inputFile : String
  moduleName : String
  packageName : String
  inputData : List (List Char)
  includeAPIVersion : Bool
  includeComments : Bool
  includeBinapiNames : Bool
  includeServices : Bool
  conv : String → String
  scalarType : String → String
  sizeOf : String → Nat
  packageData : Package

/-- Modelled from the spec: a concrete instance of the external
`convertToGoType` table for witnesses — protocol scalar names map to
host scalar types, the unsigned-8 type to the generic alias `uint8`,
and other names to their normalized identifier. -/
def convVPP : String → String := fun t =>
  if t = "u8" then "uint8"
  else if t = "u16" then "uint16"
  else if t = "u32" then "uint32"
  else if t = "u64" then "uint64"
  else if t = "i32" then "int32"
  else if t = "f64" then "float64"
  else if t = "bool" then "bool"
  else if t = "string" then "string"
  else camelCaseName t

/-! ## Field encoding planner (`generateField`) -/

/-- The element type used for array fields: when the field is an array
(fixed length or size-from reference) an unsigned-8 element type is
replaced by the host byte type (`if dataType == "uint8" { dataType =
"byte" }`). -/
def arrDataType (conv : String → String) (field : Field) : String :=
  if (0 < field.length ∨ field.sizeFrom ≠ "") ∧ conv field.type = "uint8" then "byte"
  else conv field.type

/-- The declared host type of a field (`fieldType` in `generateField`):
a slice of the (possibly byte-substituted) element type for arrays,
otherwise the converted scalar type. -/
def fieldTypeOf (conv : String → String) (field : Field) : String :=
  if 0 < field.length ∨ field.sizeFrom ≠ "" then "[]" ++ arrDataType conv field
  else conv field.type

/-- The sibling scan of `generateField`: walk all fields of the
containing object and, for each one whose `SizeFrom` names the current
field, overwrite the struc tag with `sizeof=<camelCased sibling name>`
(the last match wins, exactly as the Go `for` loop overwrites the map
entry). -/
def scanSize (fields : List Field) (nm : String) : Option String :=
  fields.foldl
    (fun acc f => if f.sizeFrom = nm then some ("sizeof=" ++ camelCaseName f.name) else acc)
    none

/-- The `struc` tag `generateField` records for a field: a fixed-array
tag `[<Length>]<elemType>` when `Length > 0`, otherwise the result of
the sibling `SizeFrom` scan. -/
def strucTagOf (conv : String → String) (fields : List Field) (field : Field) : Option String :=
  if 0 < field.length then
    some ("[" ++ Nat.repr field.length ++ "]" ++ arrDataType conv field)
  else scanSize fields field.name

/-- The `binapi` tag: the original field name when `includeBinapiNames`
is set; a `,limit=<n>` suffix is appended (to the empty string when the
name was not included, mirroring the Go map read of a missing key) when
the limit metadata is positive. -/
def binapiTag (ctx : Ctx) (field : Field) : Option String :=
  let t0 : Option String := if ctx.includeBinapiNames then some field.name else none
  if 0 < field.limit then some ((t0.getD "") ++ ",limit=" ++ Nat.repr field.limit) else t0

/-- The tag map of `generateField` in emission order: Go sorts the keys
alphabetically, so `binapi` precedes `struc`. -/
def fieldTagPairs (ctx : Ctx) (fields : List Field) (field : Field) : List (String × String) :=
  (match binapiTag ctx field with
   | some b => [("binapi", b)]
   | none => []) ++
  (match strucTagOf ctx.conv fields field with
   | some s => [("struc", s)]
   | none => [])

/-- One `key:"value"` item of the tag literal. -/
def tagRender (p : String × String) : String := p.1 ++ ":\"" ++ p.2 ++ "\""

/-- The chunks written by `generateField` for `fields[i]`: the
auxiliary string-length field (when the element type is `"string"`),
the field declaration, the tag literal (when any tag is present), and
the final newline.  An out-of-range index never occurs in the source
(all call sites iterate over the field sequence). -/
def generateFieldChunks (ctx : Ctx) (fields : List Field) (i : Nat) : List String :=
  match fields.get? i with
  | none => []
  | some field =>
    let fieldName := camelCaseName (trimPfx "_" field.name)
    (if field.type = "string" then
      ["\tXXX_" ++ fieldName ++ "Len uint32 `struc:\"sizeof=" ++ fieldName ++ "\"`\n"]
     else []) ++
    ["\t" ++ fieldName ++ " " ++ fieldTypeOf ctx.conv field] ++
    (let pairs := fieldTagPairs ctx fields field
     if pairs = [] then []
     else ["\t`"] ++ List.intersperse " " (pairs.map tagRender) ++ ["`"]) ++
    ["\n"]

/-! ## Documentation extractor (`generateComment`) -/

/-- Go `strings.IndexFunc line isNotSpace`: the index of the first
non-whitespace character, `-1` when the line is all whitespace. -/
def idxNotSpace (l : List Char) : Int :=
  match l.findIdx? (fun c => ¬ c.isWhitespace) with
  | some n => (n : Int)
  | none => -1

/-- Substring search, with a running start index. -/
def strIdxAux (pat : List Char) : List Char → Nat → Int
  | [], k => if pat = [] then (k : Int) else -1
  | c :: t, k => if pat.isPrefixOf (c :: t) then (k : Int) else strIdxAux pat t (k + 1)

/-- Go `strings.Index line pat` (character indices; all inputs are
ASCII so character and byte indices agree). -/
def strIdx (l pat : List Char) : Int := strIdxAux pat l 0

/-- Go `strings.TrimSpace`, on a character list. -/
def trimSpaceL (l : List Char) : List Char :=
  ((l.dropWhile Char.isWhitespace).reverse.dropWhile Char.isWhitespace).reverse

/-- `strings.TrimPrefix` on character lists. -/
def trimPfxL (pre l : List Char) : List Char :=
  if pre.isPrefixOf l then l.drop pre.length else l

/-- One echoed comment line: `//\t` followed by the line with the base
indent stripped (the line keeps its trailing newline). -/
def echoLine (ti line : List Char) : String := "//\t" ++ String.mk (trimPfxL ti line)

/-- The scan state of `generateComment`: whether the title line has
been found, the base indent, and the indent text to strip. -/
structure GcState where
  objFound : Bool
  indent : Int
  trimIndent : List Char
deriving DecidableEq

/-- The line scan of `generateComment`, faithful to the source loop:
while the title has not been found, search each line for the title
literal (recording indent and indent text whenever it occurs, marking
the object found — and writing a bare `//` line — only when the
trimmed line is exactly the title) and echo any line containing the
title; once found, a line indented strictly less than the base indent
ends the scan unechoed, a map-type line indented at most the base
indent is echoed and ends the scan, and any other line is echoed. -/
def gcLoop (mapType : Bool) (objTitle : List Char) : List (List Char) → GcState → List String
  | [], _ => []
  | line :: rest, s =>
    let noSpaceAt := idxNotSpace line
    if s.objFound = false then
      let ind := strIdx line objTitle
      if ind = -1 then gcLoop mapType objTitle rest s
      else
        let ti := line.take ind.toNat
        let fnd := trimSpaceL line = objTitle
        (if fnd then ["//\n"] else []) ++ [echoLine ti line] ++
          gcLoop mapType objTitle rest ⟨decide fnd, ind, ti⟩
    else if noSpaceAt < s.indent then []
    else if mapType ∧ noSpaceAt ≤ s.indent then [echoLine s.trimIndent line]
    else echoLine s.trimIndent line :: gcLoop mapType objTitle rest s

/-- The chunks written by `generateComment`: the one-line object
header, then (only when `includeComments` is set) the echoed source of
the object followed by a closing `//` line. -/
def generateComment (ctx : Ctx) (goName vppName objKind : String) : List String :=
  let header :=
    if objKind = "service" then
      "// " ++ goName ++ " represents VPP binary API services in " ++ ctx.moduleName ++
        " module.\n"
    else
      "// " ++ goName ++ " represents VPP binary API " ++ objKind ++ " '" ++ vppName ++ "':\n"
  header ::
    (if ctx.includeComments = false then []
     else
       let mapType := objKind = "alias" ∨ objKind = "service"
       let objTitle :=
         if mapType then "\"" ++ vppName ++ "\": \x7b" else "\"" ++ vppName ++ "\","
       gcLoop mapType objTitle.data ctx.inputData ⟨false, 0, []⟩ ++ ["//\n"])

/-! ## Message role classifier and message emission (`generateMessage`) -/

inductive MessageType where
  | requestMessage
  | replyMessage
  | eventMessage
  | otherMessage
deriving DecidableEq

/-- The body of the emitted `GetMessageType` method
(`generateMessageTypeGetter`'s conditional chain). -/
def roleLine : MessageType → String
  | .requestMessage => "\treturn api.RequestMessage\n"
  | .replyMessage => "\treturn api.ReplyMessage\n"
  | .eventMessage => "\treturn api.EventMessage\n"
  | .otherMessage => "\treturn api.OtherMessage\n"

/-- Chunks of `generateMessageTypeGetter`. -/
def messageTypeGetterChunks (structName : String) (msgType : MessageType) : List String :=
  ["func (*" ++ structName ++ ") GetMessageType() api.MessageType \x7b\n",
   roleLine msgType,
   "\x7d\n"]

/-- Chunks of `generateMessageNameGetter`. -/
def messageNameGetterChunks (structName msgName : String) : List String :=
  ["func (*" ++ structName ++ ") GetMessageName() string \x7b\n\treturn " ++ goQuote msgName ++
    "\n\x7d\n"]

/-- Chunks of `generateTypeNameGetter`. -/
def typeNameGetterChunks (structName msgName : String) : List String :=
  ["func (*" ++ structName ++ ") GetTypeName() string \x7b\n\treturn " ++ goQuote msgName ++
    "\n\x7d\n"]

/-- The string the emitted `GetCrcString` method returns:
`generateCrcGetter` first strips a `0x` prefix from the stored CRC. -/
def crcGetterValue (crc : String) : String := trimPfx "0x" crc

/-- Chunks of `generateCrcGetter`. -/
def crcGetterChunks (structName crc : String) : List String :=
  ["func (*" ++ structName ++ ") GetCrcString() string \x7b\n\treturn " ++
    goQuote (crcGetterValue crc) ++ "\n\x7d\n"]

/-- The loop state of `generateMessage`: the role inferred so far, the
`wasClientIndex` flag, the count `n` of emitted ordinary members, the
chunks written so far, and (as bookkeeping for the theorems) the list
of field indices that have been emitted as ordinary struct members,
i.e. for which `generateField` was invoked. -/
structure MsgState where
  msgType : MessageType
  wasClientIndex : Bool
  n : Nat
  chunks : List String
  emittedIdx : List Nat
deriving DecidableEq

/-- The positional role inference of the `generateMessage` loop: at
index 1 a client-index name makes the message a tentative Event
(setting `wasClientIndex`) and a context name makes it a Reply; at
index 2 a context name upgrades a tentative Event to a Request. -/
def msgClassUpd (s : MsgState) (p : Nat × Field) : MsgState :=
  if p.1 = 1 then
    if p.2.name = clientIndexField then
      { s with msgType := .eventMessage, wasClientIndex := true }
    else if p.2.name = contextField then { s with msgType := .replyMessage }
    else s
  else if p.1 = 2 then
    if s.wasClientIndex = true ∧ p.2.name = contextField then
      { s with msgType := .requestMessage }
    else s
  else s

/-- The skip/emit part of the `generateMessage` loop: checksum and
message-id names are always skipped, client-index and context names
are skipped only while no ordinary member has been emitted (`n == 0`);
an emitted field bumps `n`, records its index, writes the newline that
opens the struct body when it is the first member, and appends the
field's chunks. -/
def msgEmitStep (ctx : Ctx) (fields : List Field) (s : MsgState) (p : Nat × Field) : MsgState :=
  if lowerStr p.2.name = crcField ∨ lowerStr p.2.name = msgIdField then s
  else if (lowerStr p.2.name = clientIndexField ∨ lowerStr p.2.name = contextField) ∧
      s.n = 0 then s
  else
    let s2 := { s with n := s.n + 1, emittedIdx := s.emittedIdx ++ [p.1] }
    let s3 := if s2.n = 1 then { s2 with chunks := s2.chunks ++ ["\n"] } else s2
    { s3 with chunks := s3.chunks ++ generateFieldChunks ctx fields p.1 }

/-- One iteration of the `generateMessage` field loop, for the indexed
field `p`: the positional role inference followed by the skip/emit
logic. -/
def msgStep (ctx : Ctx) (fields : List Field) (s : MsgState) (p : Nat × Field) : MsgState :=
  msgEmitStep ctx fields (msgClassUpd s p) p

/-- The final loop state of `generateMessage` for a message. -/
def generateMessageData (ctx : Ctx) (msg : Message) : MsgState :=
  List.foldl (msgStep ctx msg.fields) ⟨.otherMessage, false, 0, [], []⟩ msg.fields.enum

/-- All chunks written by `generateMessage`: comment, struct
definition with the emitted members, name getter, CRC getter, message
type getter, and a final blank line. -/
def generateMessage (ctx : Ctx) (msg : Message) : List String :=
  let name := camelCaseName msg.name
  generateComment ctx name msg.name "message" ++
  ["type " ++ name ++ " struct \x7b"] ++
  (generateMessageData ctx msg).chunks ++
  ["\x7d\n"] ++
  messageNameGetterChunks name msg.name ++
  crcGetterChunks name msg.crc ++
  messageTypeGetterChunks name (generateMessageData ctx msg).msgType ++
  ["\n"]

/-- The classifier state transition alone: the `i == 1` / `i == 2`
inspection of `generateMessage`, acting on the pair (role so far,
`wasClientIndex`). -/
def classStep (st : MessageType × Bool) (p : Nat × Field) : MessageType × Bool :=
  if p.1 = 1 then
    if p.2.name = clientIndexField then (.eventMessage, true)
    else if p.2.name = contextField then (.replyMessage, st.2)
    else st
  else if p.1 = 2 then
    if st.2 = true ∧ p.2.name = contextField then (.requestMessage, st.2) else st
  else st

/-- The message role as a pure function of the field sequence. -/
def classify (fields : List Field) : MessageType :=
  (List.foldl classStep (.otherMessage, false) fields.enum).1

/-! ## Type, union, enum and alias emission -/

/-- The field loop of `generateType`: internal checksum/message-id
fields are always skipped, every other field is emitted. -/
def typeFieldChunks (ctx : Ctx) (fields : List Field) : List String :=
  fields.enum.foldl
    (fun acc p =>
      if lowerStr p.2.name = crcField ∨ lowerStr p.2.name = msgIdField then acc
      else acc ++ generateFieldChunks ctx fields p.1)
    []

/-- Chunks of `generateType`. -/
def generateType (ctx : Ctx) (typ : TypeDef) : List String :=
  let name := camelCaseName typ.name
  generateComment ctx name typ.name "type" ++
  ["type " ++ name ++ " struct \x7b\n"] ++
  typeFieldChunks ctx typ.fields ++
  ["\x7d\n"] ++
  typeNameGetterChunks name typ.name ++
  (if typ.crc ≠ "" then crcGetterChunks name typ.crc else []) ++
  ["\n"]

/-- Modelled from the spec: `getUnionSize` (declared outside the
covered source file) — "`bufferSize` is the maximum, over all of the
union's fields, of that field's encoded size (computed by a
size-oracle collaborator)". -/
def getUnionSize (ctx : Ctx) (union : Union) : Nat :=
  union.fields.foldl (fun m f => max m (ctx.sizeOf f.type)) 0

/-- The one-chunk accessor pair of `generateUnionGetterSetter` (a
single formatted write in the source). -/
def unionGetterSetterChunk (structName getterField getterStruct : String) : String :=
  "\nfunc " ++ structName ++ getterField ++ "(a " ++ getterStruct ++ ") (u " ++ structName ++
  ") \x7b\n\tu.Set" ++ getterField ++ "(a)\n\treturn\n\x7d\nfunc (u *" ++ structName ++
  ") Set" ++ getterField ++ "(a " ++ getterStruct ++
  ") \x7b\n\tvar b = new(bytes.Buffer)\n\tif err := struc.Pack(b, &a); err != nil \x7b\n\t\treturn\n\t\x7d\n\tcopy(u.XXX_UnionData[:], b.Bytes())\n\x7d\nfunc (u *" ++
  structName ++ ") Get" ++ getterField ++ "() (a " ++ getterStruct ++
  ") \x7b\n\tvar b = bytes.NewReader(u.XXX_UnionData[:])\n\tstruc.Unpack(b, &a)\n\treturn\n\x7d\n"

/-- Chunks of `generateUnion`. -/
def generateUnion (ctx : Ctx) (union : Union) : List String :=
  let name := camelCaseName union.name
  generateComment ctx name union.name "union" ++
  ["type " ++ name ++ " struct \x7b\n"] ++
  ["\tXXX_UnionData [" ++ Nat.repr (getUnionSize ctx union) ++ "]byte\n"] ++
  ["\x7d\n"] ++
  typeNameGetterChunks name union.name ++
  (if union.crc ≠ "" then crcGetterChunks name union.crc else []) ++
  (union.fields.foldl
    (fun acc field =>
      acc ++ [unionGetterSetterChunk name (camelCaseName field.name) (ctx.conv field.type)])
    []) ++
  ["\n"]

/-- Chunks of `generateEnum`. -/
def generateEnum (ctx : Ctx) (enum : Enum) : List String :=
  let name := camelCaseName enum.name
  let typ := ctx.scalarType enum.type
  generateComment ctx name enum.name "enum" ++
  ["type " ++ name ++ " " ++ typ ++ "\n", "\n", "const (\n"] ++
  (enum.entries.foldl
    (fun acc e => acc ++ ["\t" ++ e.1 ++ " " ++ name ++ " = " ++ e.2 ++ "\n"]) []) ++
  [")\n", "\n"] ++
  ["var " ++ name ++ "_name = map[" ++ typ ++ "]string\x7b\n"] ++
  (enum.entries.foldl
    (fun acc e => acc ++ ["\t" ++ e.2 ++ ": \"" ++ e.1 ++ "\",\n"]) []) ++
  ["\x7d\n", "\n"] ++
  ["var " ++ name ++ "_value = map[string]" ++ typ ++ "\x7b\n"] ++
  (enum.entries.foldl
    (fun acc e => acc ++ ["\t\"" ++ e.1 ++ "\": " ++ e.2 ++ ",\n"]) []) ++
  ["\x7d\n", "\n"] ++
  ["func (x " ++ name ++ ") String() string \x7b\n",
   "\ts, ok := " ++ name ++ "_name[" ++ typ ++ "(x)]\n",
   "\tif ok \x7b return s \x7d\n",
   "\treturn strconv.Itoa(int(x))\n",
   "\x7d\n", "\n"]

/-- Chunks of `generateAlias`. -/
def generateAlias (ctx : Ctx) (al : Alias) : List String :=
  let name := camelCaseName al.name
  generateComment ctx name al.name "alias" ++
  ["type " ++ name ++ " "] ++
  (if 0 < al.length then ["[" ++ Nat.repr al.length ++ "]"] else []) ++
  [ctx.conv al.type ++ "\n"] ++
  ["\n"]

/-! ## Service method synthesizer (`generateServiceMethod`,
`generateServices`) -/

/-- The method name of a service: the normalized request type name; for
streaming services a trailing `Dump` suffix is moved to the front. -/
def serviceMethodName (svc : Service) : String :=
  let reqTyp := camelCaseName svc.requestType
  if svc.stream then
    let m := trimSfx "Dump" reqTyp
    if reqTyp ≠ m then "Dump" ++ m else reqTyp
  else reqTyp

/-- The return clause of a service method signature: `error` when the
normalized reply type is empty, otherwise a pointer to the reply type
(a slice of pointers for streaming services) paired with `error`. -/
def serviceReturns (svc : Service) : String :=
  if camelCaseName svc.replyType = "" then "error"
  else
    let replyTyp := "*" ++ camelCaseName svc.replyType
    let replyTyp := if svc.stream then "[]" ++ replyTyp else replyTyp
    "(" ++ replyTyp ++ ", error)"

/-- The single chunk written by `generateServiceMethod`. -/
def generateServiceMethod (svc : Service) : List String :=
  ["\t" ++ serviceMethodName svc ++ "(ctx context.Context, in *" ++
    camelCaseName svc.requestType ++ ") " ++ serviceReturns svc]

/-- The client stub body for one service (`generateServices` loop). -/
def serviceImplBody (svc : Service) : List String :=
  if svc.stream then
    let replyTyp := camelCaseName svc.replyType
    ["\tvar dump []*" ++ replyTyp ++ "\n",
     "\treq := c.ch.SendMultiRequest(in)\n",
     "\tfor \x7b\n",
     "\tm := new(" ++ replyTyp ++ ")\n",
     "\tstop, err := req.ReceiveReply(m)\n",
     "\tif stop \x7b break \x7d\n",
     "\tif err != nil \x7b return nil, err \x7d\n",
     "\tdump = append(dump, m)\n",
     "\x7d\n",
     "\treturn dump, nil\n"]
  else if camelCaseName svc.replyType ≠ "" then
    ["\tout := new(" ++ camelCaseName svc.replyType ++ ")\n",
     "\terr:= c.ch.SendRequest(in).ReceiveReply(out)\n",
     "\tif err != nil \x7b return nil, err \x7d\n",
     "\treturn out, nil\n"]
  else
    ["\tc.ch.SendRequest(in)\n", "\treturn nil\n"]

/-- Chunks of `generateServices`. -/
def generateServices (ctx : Ctx) (services : List Service) : List String :=
  generateComment ctx "Service" "services" "service" ++
  ["type Service interface \x7b\n"] ++
  (services.foldl (fun acc svc => acc ++ generateServiceMethod svc ++ ["\n"]) []) ++
  ["\x7d\n", "\n"] ++
  ["type service struct \x7b\n", "\tch api.Channel\n", "\x7d\n", "\n"] ++
  ["func NewService(ch api.Channel) Service \x7b\n", "\treturn &service\x7bch\x7d\n",
   "\x7d\n", "\n"] ++
  (services.foldl
    (fun acc svc =>
      acc ++ ["func (c *service) "] ++ generateServiceMethod svc ++ [" \x7b\n"] ++
      serviceImplBody svc ++ ["\x7d\n", "\n"])
    []) ++
  ["\n"]

/-! ## Header, imports and the emission driver (`generatePackage`) -/

/-- The census line of the header (`printObjNum`): only printed when
the count is positive; when it exceeds one the object word gets an
`es` suffix if it already ends in `s`, otherwise an `s` suffix. -/
def objNumLine (obj : String) (num : Nat) : List String :=
  if 0 < num then
    let obj2 :=
      if 1 < num then
        if ("s".data).isSuffixOf obj.data then obj ++ "es" else obj ++ "s"
      else obj
    ["\t" ++ pad3 num ++ " " ++ obj2 ++ "\n"]
  else []

/-- Chunks of `generateHeader`. -/
def generateHeader (ctx : Ctx) : List String :=
  ["// Code generated by GoVPP binapi-generator. DO NOT EDIT.\n",
   "// source: " ++ ctx.inputFile ++ "\n", "\n", "/*\n",
   "Package " ++ ctx.packageName ++ " is a generated from VPP binary API module '" ++
     ctx.moduleName ++ "'.\n", "\n",
   " The " ++ ctx.moduleName ++ " module consists of:\n"] ++
  objNumLine "enum" ctx.packageData.enums.length ++
  objNumLine "alias" ctx.packageData.aliases.length ++
  objNumLine "type" ctx.packageData.types.length ++
  objNumLine "union" ctx.packageData.unions.length ++
  objNumLine "message" ctx.packageData.messages.length ++
  objNumLine "service" ctx.packageData.services.length ++
  ["*/\n", "package " ++ ctx.packageName ++ "\n", "\n"]

/-- Chunks of `generateImports`. -/
def generateImports : List String :=
  ["import api \"git.fd.io/govpp.git/api\"\n",
   "import bytes \"bytes\"\n",
   "import context \"context\"\n",
   "import strconv \"strconv\"\n",
   "import struc \"github.com/lunixbochs/struc\"\n", "\n",
   "// Reference imports to suppress errors if they are not otherwise used.\n",
   "var _ = api.RegisterMessage\n",
   "var _ = bytes.NewBuffer\n",
   "var _ = context.Background\n",
   "var _ = strconv.Itoa\n",
   "var _ = struc.Pack\n", "\n",
   "// This is a compile-time assertion to ensure that this generated file\n",
   "// is compatible with the GoVPP api package it is being compiled against.\n",
   "// A compilation error at this line likely means your copy of the\n",
   "// GoVPP api package needs to be updated.\n",
   "const _ = api.GoVppAPIPackageIsVersion1 // please upgrade the GoVPP api package\n",
   "\n"]

/-- The module-description constant block of `generatePackage`. -/
def constChunks (ctx : Ctx) : List String :=
  ["const (\n",
   "\t// ModuleName is the name of this module.\n",
   "\tModuleName = \"" ++ ctx.moduleName ++ "\"\n"] ++
  (if ctx.includeAPIVersion then
    (if ctx.packageData.version ≠ "" then
      ["\t// APIVersion is the API version of this module.\n",
       "\tAPIVersion = \"" ++ ctx.packageData.version ++ "\"\n"]
     else []) ++
    ["\t// VersionCrc is the CRC of this module.\n",
     "\tVersionCrc = " ++ ctx.packageData.crc ++ "\n"]
   else []) ++
  [")\n", "\n"]

/-- The message registration and listing blocks of `generatePackage`. -/
def messageRegistrationChunks (ctx : Ctx) : List String :=
  ["func init() \x7b\n"] ++
  (ctx.packageData.messages.foldl
    (fun acc msg =>
      acc ++ ["\tapi.RegisterMessage((*" ++ camelCaseName msg.name ++ ")(nil), \"" ++
        ctx.moduleName ++ "." ++ camelCaseName msg.name ++ "\")\n"])
    []) ++
  ["\x7d\n", "\n",
   "// Messages returns list of all messages in this module.\n",
   "func AllMessages() []api.Message \x7b\n",
   "\treturn []api.Message\x7b\n"] ++
  (ctx.packageData.messages.foldl
    (fun acc msg => acc ++ ["\t(*" ++ camelCaseName msg.name ++ ")(nil),\n"]) []) ++
  ["\x7d\n", "\x7d\n"]

/-- The ordered sequence of chunks `generatePackage` writes for a
context.  The source computes these interleaved with the writes; since
no write result is ever inspected, the sequence is a pure function of
the context. -/
def generatePackageChunks (ctx : Ctx) : List String :=
  generateHeader ctx ++ generateImports ++ constChunks ctx ++
  (if 0 < ctx.packageData.enums.length then
    ["/* Enums */\n\n"] ++
    ctx.packageData.enums.foldl (fun acc e => acc ++ generateEnum ctx e) []
   else []) ++
  (if 0 < ctx.packageData.aliases.length then
    ["/* Aliases */\n\n"] ++
    ctx.packageData.aliases.foldl (fun acc a => acc ++ generateAlias ctx a) []
   else []) ++
  (if 0 < ctx.packageData.types.length then
    ["/* Types */\n\n"] ++
    ctx.packageData.types.foldl (fun acc t => acc ++ generateType ctx t) []
   else []) ++
  (if 0 < ctx.packageData.unions.length then
    ["/* Unions */\n\n"] ++
    ctx.packageData.unions.foldl (fun acc u => acc ++ generateUnion ctx u) []
   else []) ++
  (if 0 < ctx.packageData.messages.length then
    ["/* Messages */\n\n"] ++
    ctx.packageData.messages.foldl (fun acc m => acc ++ generateMessage ctx m) [] ++
    messageRegistrationChunks ctx
   else []) ++
  (if ctx.includeServices then
    (if 0 < ctx.packageData.services.length then
      generateServices ctx ctx.packageData.services
     else [])
   else [])

/-- The output stream: the chunks actually written, the number of write
calls attempted, and (modelling a destination that starts failing
permanently at a given call index) the first failing call.  A failed
write appends nothing; the generator, which discards the error values
that `fmt.Fprint*` returns, never notices. -/
structure Writer where
  out : List String
  calls : Nat
  failFrom : Option Nat
deriving DecidableEq

/-- Whether the writer's next write call fails. -/
def Writer.fails (w : Writer) : Bool :=
  match w.failFrom with
  | some k => decide (k ≤ w.calls)
  | none => false

/-- One write call (`fmt.Fprint*` with its error discarded). -/
def write (w : Writer) (s : String) : Writer :=
  { out := if w.fails then w.out else w.out ++ [s], calls := w.calls + 1,
    failFrom := w.failFrom }

/-- Write a sequence of chunks in order. -/
def writeAll (w : Writer) (chunks : List String) : Writer := chunks.foldl write w

/-- `generatePackage`: writes every chunk to `w` and returns `nil`
(`none`): the source has a single `return nil` and never consults any
write error. -/
def generatePackage (ctx : Ctx) (w : Writer) : Writer × Option String :=
  (writeAll w (generatePackageChunks ctx), none)

/-! ## Concrete data for witnesses and counterexamples -/

/-- An empty schema package. -/
def pkg0 : Package := ⟨"", "", [], [], [], [], [], []⟩

/-- A small concrete generation context. -/
def ctxW : Ctx :=
  ⟨"test.api.json", "test", "test", [], false, false, false, false, convVPP, convVPP,
    fun _ => 4, pkg0⟩

/-- The reserved message-id field of the examples. -/
def msgidF : Field := ⟨"_vl_msg_id", "u16", 0, "", 0⟩

/-- A client-index field. -/
def ciF : Field := ⟨"client_index", "u32", 0, "", 0⟩

/-- A context field. -/
def cxF : Field := ⟨"context", "u32", 0, "", 0⟩

/-- An ordinary payload field. -/
def fooF : Field := ⟨"foo", "u32", 0, "", 0⟩

/-- A length-carrier field referenced by `datF`'s size-from. -/
def cntF : Field := ⟨"count", "u32", 0, "", 0⟩

/-- A variable-length array field whose size-from names `count`. -/
def datF : Field := ⟨"data", "u8", 0, "count", 0⟩

/-- A string-typed field. -/
def strF : Field := ⟨"name", "string", 0, "", 0⟩

/-- A fixed-length unsigned-8 array field. -/
def macF : Field := ⟨"mac", "u8", 6, "", 0⟩

/-- A message whose client-index field follows an ordinary member. -/
def msgLateCI : Message := ⟨"m", "0x01", [msgidF, fooF, ciF]⟩

/-- A well-formed request message. -/
def msgReq : Message := ⟨"m", "0x01", [msgidF, ciF, cxF, fooF]⟩

/-- Input lines for the documentation-extractor counterexample: one
body line indented past the base indent, then a terminating line
indented strictly less than the base indent. -/
def gcLines : List (List Char) := [("    x\n").data, ("\x7d\n").data]

/-! ## The claims as stated (used by the counterexamples) -/

/-- The C1 claim as stated: when sibling `G`'s size-from names `F`, the
struc tag emitted for `G` records `F`'s normalized identifier as the
size source (and `F` is not also marked fixed-size). -/
def c1Statement (conv : String → String) (fields : List Field) (F G : Field) : Prop :=
  G ∈ fields → G.sizeFrom = F.name →
    strucTagOf conv fields G = some ("sizeof=" ++ camelCaseName F.name) ∧
    ¬ ∃ d, strucTagOf conv fields F = some ("[" ++ Nat.repr F.length ++ "]" ++ d)

/-- The C3 claim as stated: fields with a reserved name (message-id,
checksum, client-index, context) are never emitted as ordinary struct
members, regardless of position. -/
def c3Statement (ctx : Ctx) (msg : Message) : Prop :=
  ∀ i field, msg.fields.get? i = some field →
    (lowerStr field.name = crcField ∨ lowerStr field.name = msgIdField ∨
     lowerStr field.name = clientIndexField ∨ lowerStr field.name = contextField) →
    i ∉ (generateMessageData ctx msg).emittedIdx

/-- The C4 claim as stated: for a string-typed field the auxiliary
length field emitted immediately before it is named `<FieldName>Len`. -/
def c4Statement (ctx : Ctx) (fields : List Field) (i : Nat) (field : Field) : Prop :=
  fields.get? i = some field → field.type = "string" →
    (generateFieldChunks ctx fields i).head? =
      some ("\t" ++ camelCaseName (trimPfx "_" field.name) ++ "Len uint32 `struc:\"sizeof=" ++
        camelCaseName (trimPfx "_" field.name) ++ "\"`\n")

/-- The C6 claim as stated: a write failure during emission is
propagated (`generatePackage` returns that error). -/
def c6Statement (ctx : Ctx) (w : Writer) : Prop :=
  w.fails = true → (generatePackage ctx w).2 ≠ none

/-- The C7 claim as stated: the emitted `GetCrcString` returns the
stored CRC string unchanged. -/
def c7Statement (structName crc : String) : Prop :=
  crcGetterChunks structName crc =
    ["func (*" ++ structName ++ ") GetCrcString() string \x7b\n\treturn " ++ goQuote crc ++
      "\n\x7d\n"]

/-- The echoing the C9 claim describes for map-style objects: stop at
the first line whose indentation is at most the base indent, echoing
that terminating line too. -/
def echoClaimMap (ind : Int) (ti : List Char) : List (List Char) → List String
  | [] => []
  | line :: rest =>
    if idxNotSpace line ≤ ind then [echoLine ti line]
    else echoLine ti line :: echoClaimMap ind ti rest

/-- The behaviour the code actually implements once the title line has
been found (and, for `mapType = false`, also what the C9 claim states
for array-style objects): a line indented strictly less than the base
indent stops the echo without being echoed; for map-style objects a
line indented exactly the base indent is echoed and stops the echo;
every other line is echoed. -/
def echoSpecFound (mapType : Bool) (ind : Int) (ti : List Char) : List (List Char) → List String
  | [] => []
  | line :: rest =>
    if idxNotSpace line < ind then []
    else if mapType ∧ idxNotSpace line = ind then [echoLine ti line]
    else echoLine ti line :: echoSpecFound mapType ind ti rest

/-- The C9 claim as stated, for a scan state in which the title line
has been found: array-style echoing stops unechoed at the first line
indented strictly less than the base indent, and map-style echoing
stops at the first line indented at most the base indent, echoing that
line. -/
def c9Statement (title : List Char) (s : GcState) (lines : List (List Char)) : Prop :=
  s.objFound = true →
    gcLoop false title lines s = echoSpecFound false s.indent s.trimIndent lines ∧
    gcLoop true title lines s = echoClaimMap s.indent s.trimIndent lines

/-! ## Helper lemmas about the field encoding planner -/

theorem scanFoldl_no_match (nm : String) :
    ∀ (l : List Field) (acc : Option String), (∀ f ∈ l, f.sizeFrom ≠ nm) →
      List.foldl
        (fun acc f =>
          if f.sizeFrom = nm then some ("sizeof=" ++ camelCaseName f.name) else acc)
        acc l = acc := by
  intro l
  induction l with
  | nil => intro acc _; rfl
  | cons f t ih =>
    intro acc h
    rw [List.foldl_cons, if_neg (h f (List.mem_cons_self f t))]
    exact ih acc fun g hg => h g (List.mem_cons_of_mem f hg)

theorem scanFoldl_last (nm : String) (G : Field) (hsf : G.sizeFrom = nm) :
    ∀ (l : List Field) (acc : Option String), G ∈ l →
      (∀ f ∈ l, f.sizeFrom = nm → f = G) →
      List.foldl
        (fun acc f =>
          if f.sizeFrom = nm then some ("sizeof=" ++ camelCaseName f.name) else acc)
        acc l = some ("sizeof=" ++ camelCaseName G.name) := by
  intro l
  induction l with
  | nil => intro acc hmem; exact absurd hmem (List.not_mem_nil G)
  | cons f t ih =>
    intro acc hmem huniq
    by_cases hf : f.sizeFrom = nm
    · have hfG : f = G := huniq f (List.mem_cons_self f t) hf
      rw [List.foldl_cons, if_pos hf]
      by_cases hGt : G ∈ t
      · exact ih _ hGt fun g hg hsz => huniq g (List.mem_cons_of_mem f hg) hsz
      · rw [scanFoldl_no_match nm t _ ?_, hfG]
        intro g hg hgsz
        exact hGt (huniq g (List.mem_cons_of_mem f hg) hgsz ▸ hg)
    · have hGt : G ∈ t := by
        rcases List.mem_cons.mp hmem with h | h
        · exact absurd (h ▸ hsf) hf
        · exact h
      rw [List.foldl_cons, if_neg hf]
      exact ih acc hGt fun g hg hsz => huniq g (List.mem_cons_of_mem f hg) hsz

theorem scanFoldl_shape (nm : String) :
    ∀ (l : List Field) (acc : Option String),
      List.foldl
        (fun acc f =>
          if f.sizeFrom = nm then some ("sizeof=" ++ camelCaseName f.name) else acc)
        acc l = acc ∨
      ∃ f ∈ l, f.sizeFrom = nm ∧
        List.foldl
          (fun acc f =>
            if f.sizeFrom = nm then some ("sizeof=" ++ camelCaseName f.name) else acc)
          acc l = some ("sizeof=" ++ camelCaseName f.name) := by
  intro l
  induction l with
  | nil => intro acc; exact Or.inl rfl
  | cons f t ih =>
    intro acc
    by_cases hf : f.sizeFrom = nm
    · rcases ih (some ("sizeof=" ++ camelCaseName f.name)) with h | ⟨g, hg, hgsz, h⟩
      · exact Or.inr ⟨f, List.mem_cons_self f t, hf, by rw [List.foldl_cons, if_pos hf, h]⟩
      · exact Or.inr ⟨g, List.mem_cons_of_mem f hg, hgsz, by rw [List.foldl_cons, if_pos hf, h]⟩
    · rcases ih acc with h | ⟨g, hg, hgsz, h⟩
      · exact Or.inl (by rw [List.foldl_cons, if_neg hf, h])
      · exact Or.inr ⟨g, List.mem_cons_of_mem f hg, hgsz, by rw [List.foldl_cons, if_neg hf, h]⟩

theorem scanSize_eq_of_uniq (fields : List Field) (nm : String) (G : Field)
    (hmem : G ∈ fields) (hsf : G.sizeFrom = nm)
    (huniq : ∀ f ∈ fields, f.sizeFrom = nm → f = G) :
    scanSize fields nm = some ("sizeof=" ++ camelCaseName G.name) :=
  scanFoldl_last nm G hsf fields none hmem huniq

theorem scanSize_shape (fields : List Field) (nm : String) :
    scanSize fields nm = none ∨
      ∃ f ∈ fields, f.sizeFrom = nm ∧
        scanSize fields nm = some ("sizeof=" ++ camelCaseName f.name) :=
  scanFoldl_shape nm fields none

theorem mem_intersperse {α : Type} (sep : α) :
    ∀ (l : List α) (a : α), a ∈ l → a ∈ List.intersperse sep l := by
  intro l
  induction l with
  | nil => intro a h; exact absurd h (List.not_mem_nil a)
  | cons x xs ih =>
    intro a h
    cases xs with
    | nil => simpa using h
    | cons y ys =>
      rcases List.mem_cons.mp h with h1 | h2
      · exact h1 ▸ List.mem_cons_self x _
      · exact List.mem_cons_of_mem x (List.mem_cons_of_mem sep (ih a h2))

theorem strucTag_render_mem (ctx : Ctx) (fields : List Field) (i : Nat) (field : Field)
    (hget : fields.get? i = some field) (t : String)
    (ht : strucTagOf ctx.conv fields field = some t) :
    tagRender ("struc", t) ∈ generateFieldChunks ctx fields i := by
  have hpairs : ("struc", t) ∈ fieldTagPairs ctx fields field := by
    unfold fieldTagPairs
    rw [ht]
    exact List.mem_append_right _ (List.mem_cons_self _ _)
  have hne : fieldTagPairs ctx fields field ≠ [] := List.ne_nil_of_mem hpairs
  have hmem : tagRender ("struc", t) ∈
      List.intersperse " " ((fieldTagPairs ctx fields field).map tagRender) :=
    mem_intersperse " " _ _ (List.mem_map_of_mem tagRender hpairs)
  unfold generateFieldChunks
  rw [hget]
  simp only [List.mem_append, if_neg hne]
  tauto

theorem declChunk_mem (ctx : Ctx) (fields : List Field) (i : Nat) (field : Field)
    (hget : fields.get? i = some field) :
    ("\t" ++ camelCaseName (trimPfx "_" field.name) ++ " " ++ fieldTypeOf ctx.conv field)
      ∈ generateFieldChunks ctx fields i := by
  unfold generateFieldChunks
  rw [hget]
  simp

/-! ## C1: size-from cross references -/

/-- C1: the claim as literally stated is false on the code.  With
`count` a plain scalar and `data` an array whose size-from names
`count`, the struc tag emitted for `data` would — per the claim —
record `Count` as the size source; in fact `data` receives no struc
tag at all (the `sizeof=Data` tag is emitted for `count`, the
referenced field, naming the referencing sibling). -/
theorem c1_counterexample : ¬ c1Statement convVPP [cntF, datF] cntF datF := by
  intro h
  have h1 := (h (by decide) rfl).1
  exact absurd h1 (by decide)

/-- C1 (amended): when sibling `G`'s size-from reference names field
`F` (and `G` is the only such sibling), the struc tag emitted is
placed on `F` — provided `F` itself has no fixed length — and records
`G`'s normalized (camel-cased) identifier (`sizeof=<camelCase G>`),
and that tag also appears in `F`'s emitted chunks; moreover no field
with `Length = 0` is ever marked as a fixed-size array: its struc tag
is absent or of the `sizeof=` form. -/
theorem c1_amended (ctx : Ctx) (fields : List Field) (i : Nat) (F G : Field)
    (hget : fields.get? i = some F)
    (hmem : G ∈ fields) (hsf : G.sizeFrom = F.name) (hF : F.length = 0)
    (huniq : ∀ f ∈ fields, f.sizeFrom = F.name → f = G) :
    strucTagOf ctx.conv fields F = some ("sizeof=" ++ camelCaseName G.name) ∧
    tagRender ("struc", "sizeof=" ++ camelCaseName G.name) ∈ generateFieldChunks ctx fields i ∧
    ∀ H : Field, H.length = 0 →
      strucTagOf ctx.conv fields H = none ∨
        ∃ f ∈ fields, f.sizeFrom = H.name ∧
          strucTagOf ctx.conv fields H = some ("sizeof=" ++ camelCaseName f.name) := by
  have htag : strucTagOf ctx.conv fields F = some ("sizeof=" ++ camelCaseName G.name) := by
    unfold strucTagOf
    rw [if_neg (by omega)]
    exact scanSize_eq_of_uniq fields F.name G hmem hsf huniq
  refine ⟨htag, strucTag_render_mem ctx fields i F hget _ htag, ?_⟩
  intro H hH
  unfold strucTagOf
  rw [if_neg (by omega)]
  exact scanSize_shape fields H.name

/-- Witness for C1 (amended) at the concrete `count`/`data` pair. -/
theorem c1_amended_witness :
    strucTagOf ctxW.conv [cntF, datF] cntF = some ("sizeof=" ++ camelCaseName datF.name) :=
  (c1_amended ctxW [cntF, datF] 0 cntF datF rfl (by decide) rfl rfl (by decide)).1

/-! ## C4: auxiliary length fields for strings -/

/-- C4: the claim as literally stated is false on the code.  For a
string-typed field named `name`, the auxiliary length field emitted
immediately before it is not named `NameLen`: the emitted name carries
an `XXX_` prefix (`XXX_NameLen`). -/
theorem c4_counterexample : ¬ c4Statement ctxW [strF] 0 strF := by
  intro h
  exact absurd (h rfl rfl) (by decide)

/-- C4 (amended): for every field whose element type is `"string"`, an
auxiliary unsigned-32-bit length field named `XXX_<FieldName>Len`,
tagged `struc:"sizeof=<FieldName>"`, is emitted immediately before the
field's own declaration. -/
theorem c4_amended (ctx : Ctx) (fields : List Field) (i : Nat) (field : Field)
    (hget : fields.get? i = some field) (hstr : field.type = "string") :
    ∃ rest, generateFieldChunks ctx fields i =
      ("\tXXX_" ++ camelCaseName (trimPfx "_" field.name) ++ "Len uint32 `struc:\"sizeof=" ++
        camelCaseName (trimPfx "_" field.name) ++ "\"`\n") ::
      ("\t" ++ camelCaseName (trimPfx "_" field.name) ++ " " ++ fieldTypeOf ctx.conv field) ::
      rest := by
  refine ⟨(let pairs := fieldTagPairs ctx fields field
           if pairs = [] then []
           else ["\t`"] ++ List.intersperse " " (pairs.map tagRender) ++ ["`"]) ++ ["\n"], ?_⟩
  unfold generateFieldChunks
  rw [hget]
  simp [hstr]

/-- Witness for C4 (amended) at a concrete string field. -/
theorem c4_amended_witness :
    ∃ rest, generateFieldChunks ctxW [strF] 0 =
      ("\tXXX_" ++ camelCaseName (trimPfx "_" strF.name) ++ "Len uint32 `struc:\"sizeof=" ++
        camelCaseName (trimPfx "_" strF.name) ++ "\"`\n") ::
      ("\t" ++ camelCaseName (trimPfx "_" strF.name) ++ " " ++ fieldTypeOf ctxW.conv strF) ::
      rest :=
  c4_amended ctxW [strF] 0 strF rfl rfl

/-! ## C5: fixed-size arrays and the byte substitution -/

/-- C5: for every field with positive fixed length, the emitted struc
tag records exactly that length and the element type (with an
unsigned-8 element type emitted as `byte`), and the tag is part of the
field's emitted chunks; moreover every array field (fixed length or
size-from) with an unsigned-8 element type is declared with the host
byte type (`[]byte`), also in its emitted declaration chunk. -/
theorem c5_confirmed (ctx : Ctx) (fields : List Field) (i : Nat) (field : Field)
    (hget : fields.get? i = some field) :
    (0 < field.length →
      strucTagOf ctx.conv fields field =
        some ("[" ++ Nat.repr field.length ++ "]" ++
          (if ctx.conv field.type = "uint8" then "byte" else ctx.conv field.type)) ∧
      tagRender ("struc", "[" ++ Nat.repr field.length ++ "]" ++
          (if ctx.conv field.type = "uint8" then "byte" else ctx.conv field.type))
        ∈ generateFieldChunks ctx fields i) ∧
    ((0 < field.length ∨ field.sizeFrom ≠ "") → ctx.conv field.type = "uint8" →
      fieldTypeOf ctx.conv field = "[]byte" ∧
      ("\t" ++ camelCaseName (trimPfx "_" field.name) ++ " []byte")
        ∈ generateFieldChunks ctx fields i) := by
  constructor
  · intro hlen
    have harr : arrDataType ctx.conv field =
        (if ctx.conv field.type = "uint8" then "byte" else ctx.conv field.type) := by
      unfold arrDataType
      by_cases hu : ctx.conv field.type = "uint8"
      · rw [if_pos ⟨Or.inl hlen, hu⟩, if_pos hu]
      · rw [if_neg (fun hc => hu hc.2), if_neg hu]
    have htag : strucTagOf ctx.conv fields field =
        some ("[" ++ Nat.repr field.length ++ "]" ++
          (if ctx.conv field.type = "uint8" then "byte" else ctx.conv field.type)) := by
      unfold strucTagOf
      rw [if_pos hlen, harr]
    exact ⟨htag, strucTag_render_mem ctx fields i field hget _ htag⟩
  · intro harr hu
    have hft : fieldTypeOf ctx.conv field = "[]byte" := by
      unfold fieldTypeOf arrDataType
      rw [if_pos harr, if_pos ⟨harr, hu⟩]
      rfl
    refine ⟨hft, ?_⟩
    have hd := declChunk_mem ctx fields i field hget
    rw [hft, String.append_assoc] at hd
    exact hd

/-- Witness for C5 at a concrete fixed `u8[6]` array field. -/
theorem c5_confirmed_witness :
    strucTagOf ctxW.conv [macF] macF =
      some ("[" ++ Nat.repr macF.length ++ "]" ++
        (if ctxW.conv macF.type = "uint8" then "byte" else ctxW.conv macF.type)) :=
  ((c5_confirmed ctxW [macF] 0 macF rfl).1 (by decide)).1

/-! ## Helper lemmas about the message loop -/

theorem msgClassUpd_proj (s : MsgState) (p : Nat × Field) :
    ((msgClassUpd s p).msgType, (msgClassUpd s p).wasClientIndex) =
      classStep (s.msgType, s.wasClientIndex) p ∧
    (msgClassUpd s p).n = s.n ∧
    (msgClassUpd s p).chunks = s.chunks ∧
    (msgClassUpd s p).emittedIdx = s.emittedIdx := by
  unfold msgClassUpd classStep
  split_ifs <;> simp_all

theorem msgEmitStep_class (ctx : Ctx) (fields : List Field) (s : MsgState) (p : Nat × Field) :
    (msgEmitStep ctx fields s p).msgType = s.msgType ∧
    (msgEmitStep ctx fields s p).wasClientIndex = s.wasClientIndex := by
  unfold msgEmitStep
  split_ifs <;> try simp_all
  constructor <;> split <;> rfl

theorem msgStep_class (ctx : Ctx) (fields : List Field) (s : MsgState) (p : Nat × Field) :
    ((msgStep ctx fields s p).msgType, (msgStep ctx fields s p).wasClientIndex) =
      classStep (s.msgType, s.wasClientIndex) p := by
  unfold msgStep
  rcases msgEmitStep_class ctx fields (msgClassUpd s p) p with ⟨h1, h2⟩
  rw [h1, h2]
  exact (msgClassUpd_proj s p).1

theorem foldl_msgStep_class (ctx : Ctx) (fields : List Field) :
    ∀ (ps : List (Nat × Field)) (s : MsgState),
      ((List.foldl (msgStep ctx fields) s ps).msgType,
        (List.foldl (msgStep ctx fields) s ps).wasClientIndex) =
        List.foldl classStep (s.msgType, s.wasClientIndex) ps := by
  intro ps
  induction ps with
  | nil => intro s; rfl
  | cons p t ih =>
    intro s
    rw [List.foldl_cons, List.foldl_cons, ih (msgStep ctx fields s p), msgStep_class]

/-- The role recorded by the message loop is exactly `classify`. -/
theorem generateMessageData_msgType (ctx : Ctx) (msg : Message) :
    (generateMessageData ctx msg).msgType = classify msg.fields := by
  unfold generateMessageData classify
  have h := foldl_msgStep_class ctx msg.fields msg.fields.enum
    ⟨.otherMessage, false, 0, [], []⟩
  exact congrArg Prod.fst h

theorem roleLine_mem_generateMessage (ctx : Ctx) (msg : Message) :
    roleLine (generateMessageData ctx msg).msgType ∈ generateMessage ctx msg := by
  unfold generateMessage messageTypeGetterChunks
  simp

theorem classStep_ge3 : ∀ (l : List Field) (k : Nat) (st : MessageType × Bool), 3 ≤ k →
    List.foldl classStep st (List.enumFrom k l) = st := by
  intro l
  induction l with
  | nil => intro k st _; rfl
  | cons f t ih =>
    intro k st hk
    have hstep : classStep st (k, f) = st := by
      unfold classStep
      rw [if_neg (by omega), if_neg (by omega)]
    rw [List.enumFrom, List.foldl_cons, hstep]
    exact ih (k + 1) st (by omega)

/-- The classification table: a pure function of the names of the
fields at indices 1 and 2. -/
theorem classify_table (fields : List Field) (f1 f2 : Field)
    (h1 : fields.get? 1 = some f1) (h2 : fields.get? 2 = some f2) :
    classify fields =
      if f1.name = clientIndexField then
        (if f2.name = contextField then MessageType.requestMessage else .eventMessage)
      else if f1.name = contextField then .replyMessage
      else .otherMessage := by
  rcases fields with _ | ⟨a, _ | ⟨b, _ | ⟨c, rest⟩⟩⟩
  · exact absurd h1 (by simp)
  · exact absurd h1 (by simp)
  · exact absurd h2 (by simp)
  · obtain rfl : f1 = b := by simpa using h1.symm
    obtain rfl : f2 = c := by simpa using h2.symm
    unfold classify
    show (List.foldl classStep (.otherMessage, false)
      ((0, a) :: (1, f1) :: (2, f2) :: List.enumFrom 3 rest)).1 = _
    rw [List.foldl_cons, List.foldl_cons, List.foldl_cons, classStep_ge3 rest 3 _ (by omega)]
    have h0 : classStep (.otherMessage, false) (0, a) = (.otherMessage, false) := rfl
    rw [h0]
    by_cases hci : f1.name = clientIndexField
    · have hs1 : classStep (MessageType.otherMessage, false) (1, f1) =
          (.eventMessage, true) := by
        unfold classStep
        simp [hci]
      rw [hs1, if_pos hci]
      by_cases hcx : f2.name = contextField
      · unfold classStep
        simp [hcx]
      · unfold classStep
        simp [hcx]
    · by_cases hcx : f1.name = contextField
      · have hs1 : classStep (MessageType.otherMessage, false) (1, f1) =
            (.replyMessage, false) := by
          unfold classStep
          simp [hci, hcx]
          decide
        rw [hs1, if_neg hci, if_pos hcx]
        unfold classStep
        simp
      · have hs1 : classStep (MessageType.otherMessage, false) (1, f1) =
            (.otherMessage, false) := by
          unfold classStep
          simp [hci, hcx]
        rw [hs1, if_neg hci, if_neg hcx]
        unfold classStep
        simp

/-! ## C2: the message role table -/

/-- C2: the role assigned to a message is a pure function of the names
of the fields at indices 1 and 2, following the
Request/Event/Reply/Other table, and the emitted `GetMessageType` body
(one of the four role lines, exactly as assigned) is part of the
message's emitted chunks. -/
theorem c2_confirmed (ctx : Ctx) (msg : Message) (f1 f2 : Field)
    (h1 : msg.fields.get? 1 = some f1) (h2 : msg.fields.get? 2 = some f2) :
    (generateMessageData ctx msg).msgType =
      (if f1.name = clientIndexField then
        (if f2.name = contextField then MessageType.requestMessage else .eventMessage)
       else if f1.name = contextField then .replyMessage
       else .otherMessage) ∧
    roleLine (generateMessageData ctx msg).msgType ∈ generateMessage ctx msg :=
  ⟨by rw [generateMessageData_msgType]; exact classify_table msg.fields f1 f2 h1 h2,
   roleLine_mem_generateMessage ctx msg⟩

/-- Witness for C2 at a concrete request message. -/
theorem c2_confirmed_witness :
    (generateMessageData ctxW msgReq).msgType =
      (if ciF.name = clientIndexField then
        (if cxF.name = contextField then MessageType.requestMessage else .eventMessage)
       else if ciF.name = contextField then .replyMessage
       else .otherMessage) ∧
    roleLine (generateMessageData ctxW msgReq).msgType ∈ generateMessage ctxW msgReq :=
  c2_confirmed ctxW msgReq ciF cxF rfl rfl

/-! ## C10: short messages and stability under appended fields -/

/-- C10: a message with fewer than two fields is classified Other (and
the emitted `GetMessageType` body is the Other role line), and for a
message with at least three fields, appending further fields — which
land at index 3 or beyond — cannot change the assigned role. -/
theorem c10_confirmed (ctx : Ctx) (msg : Message) (extra : List Field) :
    (msg.fields.length < 2 →
      (generateMessageData ctx msg).msgType = .otherMessage ∧
      roleLine MessageType.otherMessage ∈ generateMessage ctx msg) ∧
    (3 ≤ msg.fields.length →
      (generateMessageData ctx ⟨msg.name, msg.crc, msg.fields ++ extra⟩).msgType =
        (generateMessageData ctx msg).msgType) := by
  constructor
  · intro hlen
    have hother : (generateMessageData ctx msg).msgType = .otherMessage := by
      rw [generateMessageData_msgType]
      rcases hfs : msg.fields with _ | ⟨a, _ | ⟨b, t⟩⟩
      · rfl
      · rfl
      · rw [hfs] at hlen; simp at hlen; omega
    refine ⟨hother, ?_⟩
    have h := roleLine_mem_generateMessage ctx msg
    rwa [hother] at h
  · intro hlen
    rw [generateMessageData_msgType, generateMessageData_msgType]
    show classify (msg.fields ++ extra) = classify msg.fields
    rcases hfs : msg.fields with _ | ⟨a, _ | ⟨b, _ | ⟨c, rest⟩⟩⟩
    · rw [hfs] at hlen; simp at hlen
    · rw [hfs] at hlen; simp at hlen
    · rw [hfs] at hlen; simp at hlen
    · unfold classify
      show (List.foldl classStep (.otherMessage, false)
          ((0, a) :: (1, b) :: (2, c) :: List.enumFrom 3 (rest ++ extra))).1 =
        (List.foldl classStep (.otherMessage, false)
          ((0, a) :: (1, b) :: (2, c) :: List.enumFrom 3 rest)).1
      rw [List.foldl_cons, List.foldl_cons, List.foldl_cons,
        List.foldl_cons, List.foldl_cons, List.foldl_cons,
        classStep_ge3 (rest ++ extra) 3 _ (by omega), classStep_ge3 rest 3 _ (by omega)]

/-- Witness for C10: a one-field message is Other, and appending a
field to a three-field message keeps its role. -/
theorem c10_confirmed_witness :
    (generateMessageData ctxW ⟨"m", "0x01", [msgidF]⟩).msgType = .otherMessage ∧
    (generateMessageData ctxW ⟨"m", "0x01", [msgidF, ciF, cxF] ++ [fooF]⟩).msgType =
      (generateMessageData ctxW ⟨"m", "0x01", [msgidF, ciF, cxF]⟩).msgType :=
  ⟨((c10_confirmed ctxW ⟨"m", "0x01", [msgidF]⟩ []).1 (by decide)).1,
   (c10_confirmed ctxW ⟨"m", "0x01", [msgidF, ciF, cxF]⟩ [fooF]).2 (by decide)⟩

/-! ## Helper lemmas about emitted member indices -/

theorem msgStep_emitted (ctx : Ctx) (fields : List Field) (s : MsgState) (p : Nat × Field) :
    ((msgStep ctx fields s p).emittedIdx = s.emittedIdx ∧ (msgStep ctx fields s p).n = s.n) ∨
    ((msgStep ctx fields s p).emittedIdx = s.emittedIdx ++ [p.1] ∧
      (msgStep ctx fields s p).n = s.n + 1 ∧
      ¬(lowerStr p.2.name = crcField ∨ lowerStr p.2.name = msgIdField) ∧
      ((lowerStr p.2.name = clientIndexField ∨ lowerStr p.2.name = contextField) →
        s.n ≠ 0)) := by
  obtain ⟨-, hn, -, he⟩ := msgClassUpd_proj s p
  unfold msgStep msgEmitStep
  split_ifs with h1 h2
  · exact Or.inl ⟨he, hn⟩
  · exact Or.inl ⟨he, hn⟩
  · refine Or.inr ⟨?_, ?_, h1, ?_⟩
    · dsimp only
      split <;> simp [he]
    · dsimp only
      split <;> simp [hn]
    · intro hcc hs0
      exact h2 ⟨hcc, by rw [hn]; exact hs0⟩

theorem msgFold_mono (ctx : Ctx) (fields : List Field) :
    ∀ (ps : List (Nat × Field)) (s : MsgState) (j : Nat), j ∈ s.emittedIdx →
      j ∈ (List.foldl (msgStep ctx fields) s ps).emittedIdx := by
  intro ps
  induction ps with
  | nil => intro s j h; exact h
  | cons p t ih =>
    intro s j h
    rw [List.foldl_cons]
    refine ih _ j ?_
    rcases msgStep_emitted ctx fields s p with ⟨he, -⟩ | ⟨he, -, -, -⟩
    · rw [he]; exact h
    · rw [he]; exact List.mem_append_left _ h

theorem msgFold_new (ctx : Ctx) (fields : List Field) :
    ∀ (l : List Field) (k : Nat) (s : MsgState) (i : Nat),
      i ∈ (List.foldl (msgStep ctx fields) s (List.enumFrom k l)).emittedIdx →
      i ∈ s.emittedIdx ∨ k ≤ i := by
  intro l
  induction l with
  | nil => intro k s i h; exact Or.inl h
  | cons f t ih =>
    intro k s i h
    rw [List.enumFrom, List.foldl_cons] at h
    rcases ih (k + 1) _ i h with h' | h'
    · rcases msgStep_emitted ctx fields s (k, f) with ⟨he, -⟩ | ⟨he, -, -, -⟩
      · rw [he] at h'; exact Or.inl h'
      · rw [he] at h'
        rcases List.mem_append.mp h' with h'' | h''
        · exact Or.inl h''
        · simp at h''; omega
    · exact Or.inr (by omega)

theorem msgStep_inv (ctx : Ctx) (fields : List Field) (s : MsgState) (k : Nat) (f : Field)
    (hn : s.n = s.emittedIdx.length) (hb : ∀ j ∈ s.emittedIdx, j < k) :
    (msgStep ctx fields s (k, f)).n = (msgStep ctx fields s (k, f)).emittedIdx.length ∧
    ∀ j ∈ (msgStep ctx fields s (k, f)).emittedIdx, j < k + 1 := by
  rcases msgStep_emitted ctx fields s (k, f) with ⟨he, hn'⟩ | ⟨he, hn', -, -⟩
  · rw [he, hn']
    exact ⟨hn, fun j hj => Nat.lt_succ_of_lt (hb j hj)⟩
  · rw [he, hn']
    constructor
    · simp [hn]
    · intro j hj
      rcases List.mem_append.mp hj with h | h
      · exact Nat.lt_succ_of_lt (hb j h)
      · simp at h; omega

theorem msgFold_reserved (ctx : Ctx) (fields : List Field) :
    ∀ (ps : List (Nat × Field)) (s : MsgState) (i : Nat), i ∉ s.emittedIdx →
      (∀ f, (i, f) ∈ ps → (lowerStr f.name = crcField ∨ lowerStr f.name = msgIdField)) →
      i ∉ (List.foldl (msgStep ctx fields) s ps).emittedIdx := by
  intro ps
  induction ps with
  | nil => intro s i h _; exact h
  | cons p t ih =>
    intro s i h hres
    rw [List.foldl_cons]
    refine ih _ i ?_ fun f hf => hres f (List.mem_cons_of_mem p hf)
    rcases msgStep_emitted ctx fields s p with ⟨he, -⟩ | ⟨he, -, hnr, -⟩
    · rw [he]; exact h
    · rw [he]
      intro hmem
      rcases List.mem_append.mp hmem with h' | h'
      · exact h h'
      · simp at h'
        refine hnr (hres p.2 ?_)
        rw [h']
        exact List.mem_cons_self p t

theorem msgFold_ci_prior (ctx : Ctx) (fields : List Field) :
    ∀ (l : List Field) (k : Nat) (s : MsgState),
      s.n = s.emittedIdx.length → (∀ j ∈ s.emittedIdx, j < k) →
      ∀ i f, (i, f) ∈ List.enumFrom k l →
        (lowerStr f.name = clientIndexField ∨ lowerStr f.name = contextField) →
        i ∈ (List.foldl (msgStep ctx fields) s (List.enumFrom k l)).emittedIdx →
        i ∈ s.emittedIdx ∨
          ∃ j, j < i ∧ j ∈ (List.foldl (msgStep ctx fields) s (List.enumFrom k l)).emittedIdx := by
  intro l
  induction l with
  | nil => intro k s _ _ i f hmem; exact absurd hmem (List.not_mem_nil _)
  | cons f0 t ih =>
    intro k s hn hb i f hmem hci hfin
    rw [List.enumFrom, List.foldl_cons] at hfin
    rw [List.enumFrom] at hmem
    rw [List.enumFrom, List.foldl_cons]
    rcases List.mem_cons.mp hmem with heq | hmem'
    · have hik : i = k := congrArg Prod.fst heq
      have hf : f = f0 := congrArg Prod.snd heq
      rcases msgStep_emitted ctx fields s (k, f0) with ⟨he, -⟩ | ⟨he, -, -, hcin⟩
      · rcases msgFold_new ctx fields t (k + 1) _ i hfin with h' | h'
        · rw [he] at h'; exact Or.inl h'
        · exact absurd h' (by omega)
      · have hs0 : s.n ≠ 0 := hcin (hf ▸ hci)
        have hne : s.emittedIdx ≠ [] := by
          intro hnil
          rw [hnil] at hn
          simp at hn
          exact hs0 hn
        obtain ⟨j, hj⟩ := List.exists_mem_of_ne_nil _ hne
        refine Or.inr ⟨j, ?_, ?_⟩
        · have := hb j hj; omega
        · refine msgFold_mono ctx fields _ _ j ?_
          rw [he]
          exact List.mem_append_left _ hj
    · have hki : k + 1 ≤ i := (List.mk_mem_enumFrom_iff_le_and_getElem?_sub.mp hmem').1
      obtain ⟨hn2, hb2⟩ := msgStep_inv ctx fields s k f0 hn hb
      rcases ih (k + 1) _ hn2 hb2 i f hmem' hci hfin with h' | h'
      · rcases msgStep_emitted ctx fields s (k, f0) with ⟨he, -⟩ | ⟨he, -, -, -⟩
        · rw [he] at h'; exact Or.inl h'
        · rw [he] at h'
          rcases List.mem_append.mp h' with h'' | h''
          · exact Or.inl h''
          · simp at h''; omega
      · exact Or.inr h'

/-! ## C3: which reserved-name fields are skipped -/

/-- C3: the claim as literally stated is false on the code.  In the
message `[_vl_msg_id, foo, client_index]` the client-index field at
index 2 follows an already-emitted ordinary member, so the `n == 0`
guard no longer applies and it IS emitted as an ordinary struct
member. -/
theorem c3_counterexample : ¬ c3Statement ctxW msgLateCI := by
  intro h
  exact h 2 ciF rfl (by decide) (by decide)

/-- C3 (amended): fields whose lowercased name is the reserved checksum
or message-id name are never emitted as ordinary struct members,
regardless of position; fields whose lowercased name is the reserved
client-index or context name are emitted only when some ordinary
member was already emitted at a smaller index (they are always skipped
while `n == 0`, i.e. when they precede every emitted member). -/
theorem c3_amended (ctx : Ctx) (msg : Message) :
    (∀ i field, msg.fields.get? i = some field →
      (lowerStr field.name = crcField ∨ lowerStr field.name = msgIdField) →
      i ∉ (generateMessageData ctx msg).emittedIdx) ∧
    (∀ i field, msg.fields.get? i = some field →
      (lowerStr field.name = clientIndexField ∨ lowerStr field.name = contextField) →
      i ∈ (generateMessageData ctx msg).emittedIdx →
      ∃ j, j < i ∧ j ∈ (generateMessageData ctx msg).emittedIdx) := by
  constructor
  · intro i field hget hres
    refine msgFold_reserved ctx msg.fields msg.fields.enum _ i (List.not_mem_nil i) ?_
    intro f hf
    have hf' : msg.fields.get? i = some f := by
      have := List.mk_mem_enum_iff_getElem?.mp hf
      rwa [List.get?_eq_getElem?]
    rw [hget] at hf'
    injection hf' with hfe
    rw [← hfe]
    exact hres
  · intro i field hget hci hfin
    have hmem : (i, field) ∈ List.enumFrom 0 msg.fields := by
      rw [List.get?_eq_getElem?] at hget
      exact List.mk_mem_enum_iff_getElem?.mpr hget
    have h := msgFold_ci_prior ctx msg.fields msg.fields 0 ⟨.otherMessage, false, 0, [], []⟩
      rfl (fun j hj => absurd hj (List.not_mem_nil j)) i field hmem hci hfin
    rcases h with h | h
    · exact absurd h (List.not_mem_nil i)
    · exact h

/-- Witness for C3 (amended): in the concrete request message the
message-id field at index 0 is not emitted. -/
theorem c3_amended_witness : 0 ∉ (generateMessageData ctxW msgReq).emittedIdx :=
  (c3_amended ctxW msgReq).1 0 msgidF rfl (Or.inr (by decide))

/-! ## Helper lemmas about the output stream -/

theorem writeAll_calls (cs : List String) : ∀ (w : Writer),
    (writeAll w cs).calls = w.calls + cs.length := by
  induction cs with
  | nil => intro w; rfl
  | cons c t ih =>
    intro w
    unfold writeAll at ih ⊢
    rw [List.foldl_cons, ih (write w c)]
    show (write w c).calls + t.length = w.calls + (t.length + 1)
    unfold write
    dsimp
    omega

theorem writeAll_out_extend (cs : List String) : ∀ (w : Writer),
    ∃ t, (writeAll w cs).out = w.out ++ t := by
  induction cs with
  | nil => intro w; exact ⟨[], by simp [writeAll]⟩
  | cons c t ih =>
    intro w
    obtain ⟨u, hu⟩ := ih (write w c)
    unfold writeAll at hu ⊢
    rw [List.foldl_cons, hu]
    by_cases hf : w.fails
    · exact ⟨u, by simp [write, hf]⟩
    · exact ⟨c :: u, by simp [write, hf]⟩

/-! ## C6: write failures during emission -/

/-- C6: the claim as literally stated is false on the code.  With a
destination whose every write fails, `generatePackage` still returns
`nil` (`none`): the source discards the error value of every
`fmt.Fprint*` call and ends in an unconditional `return nil`, so an
output failure is never propagated. -/
theorem c6_counterexample : ¬ c6Statement ctxW ⟨[], 0, some 0⟩ := by
  intro h
  exact h rfl rfl

/-- C6 (amended): `generatePackage` always returns `nil`, write
failures included; a failed write does not abort the remaining
emission (every chunk write is still attempted, on any destination);
and partially written output is indeed never rolled back (the
destination's contents only ever grow). -/
theorem c6_amended (ctx : Ctx) (w : Writer) :
    (generatePackage ctx w).2 = none ∧
    (generatePackage ctx w).1.calls = w.calls + (generatePackageChunks ctx).length ∧
    ∃ t, (generatePackage ctx w).1.out = w.out ++ t :=
  ⟨rfl, writeAll_calls (generatePackageChunks ctx) w,
    writeAll_out_extend (generatePackageChunks ctx) w⟩

/-! ## C7: the CRC getter -/

/-- C7: the claim as literally stated is false on the code.  For the
stored CRC string `0x1234abcd`, the emitted `GetCrcString` body
returns `1234abcd`: `generateCrcGetter` strips a `0x` prefix before
embedding the value, so the checksum is not exposed verbatim. -/
theorem c7_counterexample : ¬ c7Statement "Foo" "0x1234abcd" := by
  unfold c7Statement
  decide

/-- C7 (amended): the string returned by the emitted `GetCrcString`
equals the stored CRC string with a leading `0x` stripped: for a CRC
of the form `0x<t>` the getter returns `t`, and a CRC that does not
start with `0x` is returned unchanged. -/
theorem c7_amended (structName crc t : String) :
    (crc = "0x" ++ t →
      crcGetterChunks structName crc =
        ["func (*" ++ structName ++ ") GetCrcString() string \x7b\n\treturn " ++ goQuote t ++
          "\n\x7d\n"]) ∧
    (("0x".data).isPrefixOf crc.data = false →
      crcGetterChunks structName crc =
        ["func (*" ++ structName ++ ") GetCrcString() string \x7b\n\treturn " ++ goQuote crc ++
          "\n\x7d\n"]) := by
  constructor
  · intro hcrc
    subst hcrc
    have hval : crcGetterValue ("0x" ++ t) = t := by
      unfold crcGetterValue trimPfx
      rw [if_pos]
      · rw [String.data_append, List.drop_left]
      · rw [String.data_append]
        exact List.isPrefixOf_iff_prefix.mpr (List.prefix_append _ _)
    unfold crcGetterChunks
    rw [hval]
  · intro hpre
    have hval : crcGetterValue crc = crc := by
      unfold crcGetterValue trimPfx
      rw [if_neg]
      simp [hpre]
    unfold crcGetterChunks
    rw [hval]

/-- Witness for C7 (amended) at a concrete CRC string. -/
theorem c7_amended_witness :
    crcGetterChunks "Foo" "0x12" =
      ["func (*" ++ "Foo" ++ ") GetCrcString() string \x7b\n\treturn " ++ goQuote "12" ++
        "\n\x7d\n"] :=
  (c7_amended "Foo" "0x12" "12").1 rfl

/-! ## C8: service method return types -/

/-- C8: the emitted service method signature ends in the return clause
determined by the three-case table: `error` alone when the service has
no (normalized) reply type; `(*ReplyType, error)` for a unary service
with a reply type; `([]*ReplyType, error)` for a streaming service
with a reply type. -/
theorem c8_confirmed (svc : Service) :
    generateServiceMethod svc =
      ["\t" ++ serviceMethodName svc ++ "(ctx context.Context, in *" ++
        camelCaseName svc.requestType ++ ") " ++ serviceReturns svc] ∧
    (camelCaseName svc.replyType = "" → serviceReturns svc = "error") ∧
    (camelCaseName svc.replyType ≠ "" → svc.stream = false →
      serviceReturns svc = "(*" ++ camelCaseName svc.replyType ++ ", error)") ∧
    (camelCaseName svc.replyType ≠ "" → svc.stream = true →
      serviceReturns svc = "([]*" ++ camelCaseName svc.replyType ++ ", error)") := by
  refine ⟨rfl, ?_, ?_, ?_⟩
  · intro h
    unfold serviceReturns
    rw [if_pos h]
  · intro h hs
    unfold serviceReturns
    rw [if_neg h]
    dsimp only
    rw [hs, if_neg (by simp), ← String.append_assoc]
    rfl
  · intro h hs
    unfold serviceReturns
    rw [if_neg h]
    dsimp only
    rw [hs, if_pos rfl, ← String.append_assoc, ← String.append_assoc]
    rfl

/-- Witness for C8 at a concrete streaming service. -/
theorem c8_confirmed_witness :
    serviceReturns ⟨"sw_if_dump", "sw_if_details", true⟩ =
      "([]*" ++ camelCaseName "sw_if_details" ++ ", error)" :=
  (c8_confirmed ⟨"sw_if_dump", "sw_if_details", true⟩).2.2.2 (by decide) rfl

/-! ## C9: termination of the documentation echo -/

/-- C9: the claim as literally stated is false on the code.  In a
found map-style scan with base indent 2, a subsequent line indented
strictly less than the base indent (here `}` at indent 0) terminates
the echo but — contrary to the claim — is NOT echoed: the
strictly-less branch, shared with array-style objects, fires first and
breaks without echoing. -/
theorem c9_counterexample : ¬ c9Statement [] ⟨true, 2, ("  ").data⟩ gcLines := by
  intro h
  exact absurd (h rfl).2 (by decide)

/-- C9 (amended): once the title line has been found, echoing proceeds
as follows — a line indented strictly less than the base indent stops
the scan without being echoed (for map-style and array-style objects
alike); for map-style objects a line indented exactly the base indent
is echoed and then stops the scan; every other line is echoed and the
scan continues.  (The array-style half of the claim holds as stated;
for map-style objects the terminating line is echoed only when its
indentation equals the base indent.) -/
theorem c9_amended (mapType : Bool) (title : List Char) (lines : List (List Char))
    (s : GcState) (h : s.objFound = true) :
    gcLoop mapType title lines s = echoSpecFound mapType s.indent s.trimIndent lines := by
  induction lines with
  | nil => rfl
  | cons line rest ih =>
    unfold gcLoop echoSpecFound
    dsimp only
    rw [h, if_neg (by simp)]
    by_cases h1 : idxNotSpace line < s.indent
    · rw [if_pos h1, if_pos h1]
    · rw [if_neg h1, if_neg h1]
      by_cases h2 : (mapType : Prop) ∧ idxNotSpace line ≤ s.indent
      · have h2' : (mapType : Prop) ∧ idxNotSpace line = s.indent :=
          ⟨h2.1, le_antisymm h2.2 (not_lt.mp h1)⟩
        rw [if_pos h2, if_pos h2']
      · have h2' : ¬((mapType : Prop) ∧ idxNotSpace line = s.indent) := fun hc =>
          h2 ⟨hc.1, le_of_eq hc.2⟩
        rw [if_neg h2, if_neg h2', ih]

/-- Witness for C9 (amended) on the concrete line pair. -/
theorem c9_amended_witness :
    gcLoop true [] gcLines ⟨true, 2, ("  ").data⟩ =
      echoSpecFound true 2 (("  ").data) gcLines :=
  c9_amended true [] gcLines ⟨true, 2, ("  ").data⟩ rfl

end BinapiGen
